import Mathlib

/-!
Verification of the b3j0f/configuration core: a shallow embedding of
`b3j0f/conf/model/conf.py` (`Configuration.resolve`, `Configuration.pvalue`,
`Configuration.update`) and `b3j0f/conf/configurable/core.py`
(`Configurable._configure`, `Configurable.toconfigure` setter,
`Configurable.applyconfiguration`'s call into `resolve`).

Python values are modelled by the inductive `Value`, Python exceptions by
`PyErr`.  The model classes `Parameter` and `Category` live in files that are
not part of the sources at hand (`model/param.py`, `model/cat.py`,
`model/base.py`); the definitions that stand for them are modelled from the
specification and marked as such in their doc comments.  Everything else is a
direct translation of the Python source.
-/

namespace B3j0fConf

/-- Python runtime types relevant to the configuration model (`vtype`). -/
inductive PyType where
  | pystr
  | pyint
  | pyfloat
  | pybool
  | pyobjType (n : Nat)
deriving DecidableEq, Repr

/-- Python values: `None`, strings, ints, bools and opaque objects
(an object is identified by a numeric id and carries its type tag). -/
inductive Value where
  | vnone
  | vstr (s : String)
  | vint (n : Int)
  | vbool (b : Bool)
  | vobj (id : Nat) (ty : Nat)
deriving DecidableEq, Repr

/-- Python `isinstance` restricted to the modelled values.
`bool` is a subclass of `int` in Python, so `isinstance(True, int)` holds. -/
def isinstance : Value → PyType → Bool
  | Value.vstr _, PyType.pystr => true
  | Value.vint _, PyType.pyint => true
  | Value.vbool _, PyType.pybool => true
  | Value.vbool _, PyType.pyint => true
  | Value.vobj _ t, PyType.pyobjType n => t = n
  | _, _ => false

/-- Python exceptions raised by the embedded code. -/
inductive PyErr where
  | typeError
  | nameError
  | attributeError
  | indexError
  | keyError
deriving DecidableEq, Repr

/-- The `Parameter` model element: `name`, resolved `value`, source expression
`svalue`, declared type `vtype`, resolution `error`, and the `local` flag
(`plocal` here, `local` being reserved in Lean). -/
structure Parameter where
  name : String
  value : Value
  svalue : Option String
  vtype : Option PyType
  error : Option String
  plocal : Bool
deriving DecidableEq, Repr

/-- Modelled from the spec: the `Parameter.value` setter of `model/param.py`
(not among the sources).  Per §7, "an override attempt whose new value cannot
satisfy the existing parameter's declared type" raises a `TypeError`;
otherwise the value is stored. -/
def Parameter.setValue (p : Parameter) (v : Value) : Except PyErr Parameter :=
  match p.vtype with
  | none => Except.ok { p with value := v }
  | some t =>
      if isinstance v t then Except.ok { p with value := v }
      else Except.error PyErr.typeError

/-- Modelled from the spec: `Parameter.copy(local=...)` of `model/param.py`
(not among the sources): an independent parameter with the same
name/value/svalue/vtype and the overridden `local` flag. -/
def Parameter.copy (p : Parameter) (loc : Bool) : Parameter :=
  { p with plocal := loc }

/-- The `Category` model element: a name and its parameters in insertion
order (names are unique within one category by invariant). -/
structure Category where
  name : String
  params : List Parameter
deriving DecidableEq, Repr

/-- Name-indexed lookup in a parameter list (first match). -/
def findParam : List Parameter → String → Option Parameter
  | [], _ => none
  | p :: ps, n => if p.name = n then some p else findParam ps n

/-- Modelled from the spec: `Category.getparams` of `model/cat.py` (not among
the sources): name-indexed lookup returning the parameters matching the
argument's name (zero or one match under the uniqueness invariant). -/
def Category.getparams (c : Category) (param : Parameter) : List Parameter :=
  c.params.filter (fun q => q.name = param.name)

/-- `pname in cat`: containment is name-based. -/
def Category.hasParam (c : Category) (n : String) : Bool :=
  (findParam c.params n).isSome

/-- The body of the `if paramstoupdate:` branch of `Configuration.update`
applied to one stored parameter: `paramtoupdate.svalue = param.svalue`, then
`try: paramtoupdate.value = param.value except TypeError: pass`. -/
def mergeParam (q param : Parameter) : Parameter :=
  let q1 := { q with svalue := param.svalue }
  match q1.setValue param.value with
  | Except.ok r => r
  | Except.error _ => q1

/-- One iteration of `for param in cat:` inside `Configuration.update`
(conf.py lines 125-143): update every stored parameter of the same name in
place, or add a copy marked foreign when there is none. -/
def Category.updateWith (selfcat : Category) (param : Parameter) : Category :=
  let paramstoupdate := selfcat.getparams param
  if paramstoupdate.isEmpty then
    { selfcat with params := selfcat.params ++ [param.copy false] }
  else
    { selfcat with
        params := selfcat.params.map (fun q =>
          if q.name = param.name then mergeParam q param else q) }

/-- The `Configuration` model element: categories in insertion order
(names are unique by invariant, `_content` being a name-keyed ordered map). -/
structure Configuration where
  cats : List Category
deriving DecidableEq, Repr

/-- `cat.name in self` on a configuration. -/
def Configuration.hasCat (cfg : Configuration) (n : String) : Bool :=
  cfg.cats.any (fun c => c.name = n)

/-- Name-indexed category lookup (first match; unique by invariant). -/
def findCat : List Category → String → Option Category
  | [], _ => none
  | c :: cs, n => if c.name = n then some c else findCat cs n

/-- One iteration of `for cat in conf:` inside `Configuration.update`
(conf.py lines 119-146): merge the category into the same-named category of
the accumulated configuration, or append it whole when the name is new. -/
def updateStepCat (acc : Configuration) (cat : Category) : Configuration :=
  if acc.hasCat cat.name then
    { cats := acc.cats.map (fun sc =>
        if sc.name = cat.name then cat.params.foldl Category.updateWith sc
        else sc) }
  else { cats := acc.cats ++ [cat] }

/-- `Configuration.update(conf)` (conf.py lines 112-146): for each category of
`conf`, merge it parameter-by-parameter into the same-named category of
`self`, or append the whole category when the name is new. -/
def Configuration.update (self conf : Configuration) : Configuration :=
  conf.cats.foldl updateStepCat self

/-- The `for cat in self._content.values():` loop of `Configuration.pvalue`
(conf.py lines 89-98), as a recursion over the remaining categories with the
loop state (`category`, `categories`).  The membership test
`cname in (None, category.name)` builds its tuple eagerly, so it evaluates
`category.name`; on the first category containing `pname` the variable
`category` is still `None`, which raises an `AttributeError`. -/
def pvalueLoop (pname : String) (cname : Option String) :
    List Category → Option Category → List Category →
    Except PyErr (Option Category × List Category)
  | [], category, categories => Except.ok (category, categories)
  | cat :: rest, category, categories =>
      if cat.hasParam pname then
        let categories := categories ++ [cat]
        match category with
        | none => Except.error PyErr.attributeError
        | some c =>
            if cname = none ∨ cname = some c.name then
              if cname ≠ none then Except.ok (some cat, categories)
              else pvalueLoop pname cname rest (some cat) categories
            else pvalueLoop pname cname rest category categories
      else pvalueLoop pname cname rest category categories

/-- `Configuration.pvalue(pname, cname, history)` (conf.py lines 70-110):
run the collection loop, raise `NameError` when no category was selected,
re-index by `categories[-history]` when `history != 0` (an out-of-range
negative index raises `IndexError`), then return `category[pname].value`. -/
def Configuration.pvalue (self : Configuration) (pname : String)
    (cname : Option String) (history : Nat) : Except PyErr Value :=
  match pvalueLoop pname cname self.cats none [] with
  | Except.error e => Except.error e
  | Except.ok (category, categories) =>
      match category with
      | none => Except.error PyErr.nameError
      | some cat0 =>
          let pick : Except PyErr Category :=
            if history ≠ 0 then
              if h : 0 < history ∧ history ≤ categories.length then
                Except.ok (categories.get
                  ⟨categories.length - history, by omega⟩)
              else Except.error PyErr.indexError
            else Except.ok cat0
          match pick with
          | Except.error e => Except.error e
          | Except.ok category =>
              match findParam category.params pname with
              | some param => Except.ok param.value
              | none => Except.error PyErr.keyError

/-- Keyword parameters accepted by `Configuration.resolve` as defined in
conf.py lines 49-51: `configurable`, `scope` and `safe` only. -/
def resolveKeywords : List String := ["configurable", "scope", "safe"]

/-- Keywords passed to `conf.resolve(...)` by
`Configurable.applyconfiguration` (core.py lines 446-449). -/
def applyconfResolveKeywords : List String :=
  ["configurable", "scope", "safe", "besteffort"]

/-- Python call semantics: passing a keyword argument that is not among the
callee's parameters raises a `TypeError` before the body runs. -/
def pyCallKwargs (accepted passed : List String) : Except PyErr Unit :=
  if passed.all (fun k => accepted.contains k) then Except.ok ()
  else Except.error PyErr.typeError

/-- Association-list store: replace the first binding of a key in place, or
append a new binding (Python dict assignment keeps insertion order). -/
def assocSet : List (String × Value) → String → Value → List (String × Value)
  | [], n, v => [(n, v)]
  | a :: l, n, v => if a.fst = n then (n, v) :: l else a :: assocSet l n v

/-- Association-list lookup (first binding of the key). -/
def assocGet : List (String × Value) → String → Option Value
  | [], _ => none
  | a :: l, n => if a.fst = n then some a.snd else assocGet l n

/-- A Python object seen as its attribute dictionary (name → value). -/
structure PyObject where
  attrs : List (String × Value)
deriving DecidableEq, Repr

/-- `setattr(o, n, v)`. -/
def PyObject.setattr (o : PyObject) (n : String) (v : Value) : PyObject :=
  { attrs := assocSet o.attrs n v }

/-- `getattr(o, n)`: `none` when the attribute is absent. -/
def PyObject.getattr (o : PyObject) (n : String) : Option Value :=
  assocGet o.attrs n

/-- `Configurable.SUB_CONF_PREFIX` (core.py line 87). -/
def SUB_CONF_MARKER : String := ":"

/-- Character-list version of string startswith (kernel-reducible). -/
def charsIsPref : List Char → List Char → Bool
  | [], _ => true
  | _ :: _, [] => false
  | a :: as, b :: bs => a = b && charsIsPref as bs

/-- `s.startswith(marker)`. -/
def strStartsWith (s marker : String) : Bool :=
  charsIsPref marker.data s.data

/-- One parameter step of the first loop of `Configurable._configure`
(core.py lines 575-583): fetch `param.value`, `continue` when `param.error`
is set, and `setattr(toconfigure, param.name, value)` when
`self.foreigns or param.local`. -/
def applyParam (foreigns : Bool) (t : PyObject) (param : Parameter) :
    PyObject :=
  if param.error.isSome then t
  else if foreigns || param.plocal then t.setattr param.name param.value
  else t

/-- One category step of the attribute-assignment phase of
`Configurable._configure`: skip sub-configuration categories, apply every
parameter of the others in order. -/
def applyParamsCat (foreigns : Bool) (tgt : PyObject) (cat : Category) :
    PyObject :=
  if strStartsWith cat.name SUB_CONF_MARKER then tgt
  else cat.params.foldl (applyParam foreigns) tgt

/-- The attribute-assignment phase of `Configurable._configure` (core.py
lines 567-583): iterate the categories, skip those whose name starts with the
sub-configuration marker, and apply every parameter of the others. -/
def applyParams (foreigns : Bool) (conf : Configuration) (target : PyObject) :
    PyObject :=
  conf.cats.foldl (applyParamsCat foreigns) target

/-- The `sub_confs` list built by `_configure` (core.py lines 567-569): the
NAMES of the categories starting with the sub-configuration marker. -/
def subConfNames (conf : Configuration) : List String :=
  conf.cats.foldl
    (fun acc cat =>
      if strStartsWith cat.name SUB_CONF_MARKER then acc ++ [cat.name] else acc)
    []

/-- One category step of the `params` collection of `_configure`. -/
def collectStep (acc : List Parameter) (cat : Category) : List Parameter :=
  if strStartsWith cat.name SUB_CONF_MARKER then acc else acc ++ cat.params

/-- The `params` list built by `_configure` (core.py lines 571-573): the
parameters of the categories that do not carry the marker, in order. -/
def collectedParams (conf : Configuration) : List Parameter :=
  conf.cats.foldl collectStep []

/-- The sub-configuration phase of `_configure` (core.py lines 585-603): for
the first collected parameter whose marker-prefixed name occurs in
`sub_confs`, the code evaluates `sub_confs[sub_conf_name]` — indexing a
*list* (of names) by a *string* — which raises a `TypeError`; with no such
parameter the loop finishes without effect. -/
def expandSubConfs (conf : Configuration) : Except PyErr Unit :=
  if (collectedParams conf).any
      (fun p => (subConfNames conf).contains (SUB_CONF_MARKER ++ p.name)) then
    Except.error PyErr.typeError
  else Except.ok ()

/-- `Configurable._configure` on a single (non-list) target: the attribute
phase mutates the target, then the sub-configuration phase runs (and is the
only part that can raise). -/
def configureOne (foreigns : Bool) (conf : Configuration) (target : PyObject) :
    PyObject × Except PyErr Unit :=
  (applyParams foreigns conf target, expandSubConfs conf)

/-- Modelled from the spec: per-parameter step of `Configuration.unify`
(§4.3; its code is not among the sources): route a parameter into ERRORS
when `error` is set — excluding it from the other two views — else into
VALUES when local, else into FOREIGNS. -/
def unifyStepParam (acc : List Parameter × List Parameter × List Parameter)
    (p : Parameter) : List Parameter × List Parameter × List Parameter :=
  if p.error.isSome then (acc.1, acc.2.1, acc.2.2 ++ [p])
  else if p.plocal then (acc.1 ++ [p], acc.2.1, acc.2.2)
  else (acc.1, acc.2.1 ++ [p], acc.2.2)

/-- Category step of `unify`: sub-configuration categories are skipped. -/
def unifyStepCat (acc : List Parameter × List Parameter × List Parameter)
    (cat : Category) : List Parameter × List Parameter × List Parameter :=
  if strStartsWith cat.name SUB_CONF_MARKER then acc
  else cat.params.foldl unifyStepParam acc

/-- Modelled from the spec: `Configuration.unify` (§4.3; its code is not
among the sources).  The three flattened views `(VALUES, FOREIGNS, ERRORS)`
over the non-sub-configuration categories. -/
def Configuration.unify (conf : Configuration) :
    List Parameter × List Parameter × List Parameter :=
  conf.cats.foldl unifyStepCat ([], [], [])

/-! The `Configurable.toconfigure` setter (core.py lines 265-307).  Target
objects are identified by numeric ids; the only attribute involved is
`__configurables__`, so the heap is the association list from object id to
that attribute's list of configurable ids (absence of a binding = absence of
the attribute). -/

/-- The `__configurables__` attributes of all objects: object id → list of
configurable ids (a missing key models a missing attribute). -/
abbrev CfgAttrs := List (Nat × List Nat)

/-- `getattr(o, '__configurables__')`, `none` when absent. -/
def getCfgs (attrs : CfgAttrs) (o : Nat) : Option (List Nat) :=
  (List.find? (fun a => a.fst = o) attrs).map (fun a => a.snd)

/-- `setattr(o, '__configurables__', v)`. -/
def setCfgs (attrs : CfgAttrs) (o : Nat) (v : List Nat) : CfgAttrs :=
  if (List.find? (fun a => a.fst = o) attrs).isSome then
    List.map (fun a => if a.fst = o then (o, v) else a) attrs
  else attrs ++ [(o, v)]

/-- `delattr(o, '__configurables__')`. -/
def delCfgs (attrs : CfgAttrs) (o : Nat) : CfgAttrs :=
  List.filter (fun a => ¬ a.fst = o) attrs

/-- The `toconfigure` setter (core.py lines 265-307) with `value` already a
list.  `excluded = set(value) - set(self._toconfigure)`; for each excluded
object, remove `self` from its `__configurables__` when present and delete
the attribute when the list becomes empty (a missing attribute is passed
over); then, when `store`, register `self` once in every object of `value`.
The set difference iterates in unspecified order, but each object is treated
independently and idempotently, so the list order used here is faithful. -/
def setToconfigure (selfId : Nat) (store : Bool) (oldList : List Nat)
    (attrs : CfgAttrs) (value : List Nat) : CfgAttrs × List Nat :=
  let excluded := value.filter (fun o => ¬ oldList.contains o)
  let attrs1 := excluded.foldl
    (fun ats o =>
      match getCfgs ats o with
      | none => ats
      | some cfgs =>
          let cfgs1 := if cfgs.contains selfId then cfgs.erase selfId else cfgs
          if cfgs1.isEmpty then delCfgs ats o else setCfgs ats o cfgs1)
    attrs
  let attrs2 :=
    if store then
      value.foldl
        (fun ats o =>
          let cfgs := (getCfgs ats o).getD []
          let cfgs1 := if cfgs.contains selfId then cfgs else cfgs ++ [selfId]
          setCfgs ats o cfgs1)
        attrs1
    else attrs1
  (attrs2, value)

/-- The condition under which `Parameter.setValue` succeeds: no declared
`vtype`, or the new value is an instance of it ("type-compatible"). -/
def typeOK (vt : Option PyType) (v : Value) : Bool :=
  match vt with
  | none => true
  | some t => isinstance v t

/-- Look a parameter up through its category name then its own name. -/
def lookupParam (cfg : Configuration) (cn pn : String) : Option Parameter :=
  match findCat cfg.cats cn with
  | none => none
  | some c => findParam c.params pn

/-! Concrete model elements mirroring `ConfigurableTest.setUp`
(configurable/test/core.py lines 54-66): category `A` declares `a = "a"`,
`_ = 2` and an `error` parameter with a failing source expression (its
recorded resolution failure is represented by `error ≠ none`); category `B`
declares `a = "b"` and `b = "b"`. -/

/-- `Parameter('a', value='a', vtype=str)`. -/
def pA : Parameter := ⟨"a", Value.vstr "a", none, some PyType.pystr, none, true⟩

/-- `Parameter('_', value=2, vtype=int)`. -/
def pU : Parameter := ⟨"_", Value.vint 2, none, some PyType.pyint, none, true⟩

/-- `Parameter('error', vtype=float, svalue='error')` after a failed
resolution attempt recorded its error. -/
def pE : Parameter :=
  ⟨"error", Value.vnone, some "error", some PyType.pyfloat,
    some "ResolutionError", true⟩

/-- `Parameter('a', value='b', vtype=str)`. -/
def pA2 : Parameter := ⟨"a", Value.vstr "b", none, some PyType.pystr, none, true⟩

/-- `Parameter('b', value='b', vtype=str)`. -/
def pB : Parameter := ⟨"b", Value.vstr "b", none, some PyType.pystr, none, true⟩

/-- `Category('A', ...)` of the test fixture. -/
def catA : Category := ⟨"A", [pA, pU, pE]⟩

/-- `Category('B', ...)` of the test fixture. -/
def catB : Category := ⟨"B", [pA2, pB]⟩

/-- The fixture's categories renamed to one shared name, so that they merge
parameter-by-parameter instead of standing side by side. -/
def catAX : Category := ⟨"X", [pA, pU, pE]⟩

/-- Same-named counterpart of `catB`. -/
def catBX : Category := ⟨"X", [pA2, pB]⟩

/-- An integer-typed parameter with a resolved value (merge target). -/
def pInt : Parameter :=
  ⟨"n", Value.vint 5, some "5", some PyType.pyint, none, true⟩

/-- A string-valued override for `pInt`: its value cannot satisfy `int`. -/
def pStr : Parameter := ⟨"n", Value.vstr "x", some "x-expr", none, none, true⟩

/-- A sub-configuration category: marker + parent parameter name `widget`. -/
def subCat : Category :=
  ⟨":widget", [⟨"depth", Value.vint 1, none, none, none, true⟩]⟩

/-- A category resolving the parameter `widget` to a callable object. -/
def widgetCat : Category :=
  ⟨"C", [⟨"widget", Value.vobj 7 0, none, none, none, true⟩]⟩

/-- A category `Y` that exists only on the updating side. -/
def catY : Category := ⟨"Y", [pB]⟩

/-- An updating configuration with one shared and one new category. -/
def B1w : Configuration := ⟨[catBX, catY]⟩

/-- A category holding the integer-typed parameter `n`. -/
def catS : Category := ⟨"S", [pInt]⟩

/-- A same-named category overriding `n` with a string value. -/
def catS2 : Category := ⟨"S", [pStr]⟩

/-! Lemmas about attribute assignment and the `_configure` folds. -/

theorem assocGet_assocSet_self (l : List (String × Value)) (n : String)
    (v : Value) : assocGet (assocSet l n v) n = some v := by
  induction l with
  | nil => simp [assocSet, assocGet]
  | cons a l ih =>
      by_cases h : a.fst = n
      · simp [assocSet, assocGet, h]
      · simp [assocSet, assocGet, h, ih]

theorem assocGet_assocSet_ne (l : List (String × Value)) (m n : String)
    (v : Value) (h : m ≠ n) : assocGet (assocSet l m v) n = assocGet l n := by
  induction l with
  | nil => simp [assocSet, assocGet, h]
  | cons a l ih =>
      by_cases h1 : a.fst = m
      · simp [assocSet, assocGet, h1, h]
      · by_cases h2 : a.fst = n
        · simp [assocSet, assocGet, h1, h2, Ne.symm h]
        · simp [assocSet, assocGet, h1, h2, ih]

theorem getattr_setattr_self (t : PyObject) (n : String) (v : Value) :
    (t.setattr n v).getattr n = some v :=
  assocGet_assocSet_self t.attrs n v

theorem getattr_setattr_ne (t : PyObject) (m n : String) (v : Value)
    (h : m ≠ n) : (t.setattr m v).getattr n = t.getattr n :=
  assocGet_assocSet_ne t.attrs m n v h

theorem getattr_applyParam_ne (foreigns : Bool) (t : PyObject) (q : Parameter)
    (n : String) (h : q.name ≠ n) :
    (applyParam foreigns t q).getattr n = t.getattr n := by
  unfold applyParam
  split
  · rfl
  · split
    · exact getattr_setattr_ne t q.name n q.value h
    · rfl

theorem applyParam_skip (foreigns : Bool) (t : PyObject) (q : Parameter)
    (h : q.error.isSome = true ∨ (foreigns || q.plocal) = false) :
    applyParam foreigns t q = t := by
  unfold applyParam
  rcases h with h | h
  · simp [h]
  · simp [h]

theorem getattr_foldl_applyParam_frozen (foreigns : Bool) (n : String) :
    ∀ (ps : List Parameter) (t : PyObject),
      (∀ q ∈ ps, q.name = n →
        (q.error.isSome = true ∨ (foreigns || q.plocal) = false)) →
      (ps.foldl (applyParam foreigns) t).getattr n = t.getattr n := by
  intro ps
  induction ps with
  | nil => intro t _; rfl
  | cons q rest ih =>
      intro t h
      rw [List.foldl_cons]
      rw [ih (applyParam foreigns t q) (fun q' hm hn => h q' (by simp [hm]) hn)]
      by_cases hq : q.name = n
      · rw [applyParam_skip foreigns t q (h q (by simp) hq)]
      · exact getattr_applyParam_ne foreigns t q n hq

theorem getattr_foldl_applyParam_applied (foreigns : Bool) (n : String)
    (p : Parameter) (herr : p.error = none)
    (happ : (foreigns || p.plocal) = true) :
    ∀ (ps : List Parameter) (t : PyObject),
      ps.filter (fun q => q.name = n) = [p] →
      (ps.foldl (applyParam foreigns) t).getattr n = some p.value := by
  intro ps
  induction ps with
  | nil => intro t h; simp at h
  | cons q rest ih =>
      intro t hf
      by_cases hq : q.name = n
      · have hcons : q :: rest.filter (fun q => q.name = n) = [p] := by
          simpa [List.filter_cons, hq] using hf
        have hqp : q = p := (List.cons_eq_cons.mp hcons).1
        have hrest : rest.filter (fun q => q.name = n) = [] :=
          (List.cons_eq_cons.mp hcons).2
        subst hqp
        rw [List.foldl_cons]
        have hstep : applyParam foreigns t q = t.setattr q.name q.value := by
          unfold applyParam
          simp [herr, happ]
        rw [hstep]
        rw [getattr_foldl_applyParam_frozen foreigns n rest _ ?_]
        · rw [hq]; exact getattr_setattr_self t n q.value
        · intro q' hm hn
          exfalso
          have : q' ∈ rest.filter (fun q => q.name = n) :=
            List.mem_filter.mpr ⟨hm, by simp [hn]⟩
          simp [hrest] at this
      · rw [List.foldl_cons]
        exact ih (applyParam foreigns t q)
          (by simpa [List.filter_cons, hq] using hf)

theorem collectStep_acc (cats : List Category) :
    ∀ acc : List Parameter,
      cats.foldl collectStep acc = acc ++ cats.foldl collectStep [] := by
  induction cats with
  | nil => intro acc; simp
  | cons c cs ih =>
      intro acc
      by_cases h : strStartsWith c.name SUB_CONF_MARKER
      · rw [List.foldl_cons, List.foldl_cons]
        rw [show collectStep acc c = acc from by simp [collectStep, h]]
        rw [show collectStep [] c = [] from by simp [collectStep, h]]
        exact ih acc
      · rw [List.foldl_cons, List.foldl_cons]
        rw [show collectStep acc c = acc ++ c.params from by
          simp [collectStep, h]]
        rw [show collectStep [] c = c.params from by simp [collectStep, h]]
        rw [ih (acc ++ c.params), ih c.params, List.append_assoc]

theorem applyParams_eq_foldl_collected (foreigns : Bool) :
    ∀ (cats : List Category) (t : PyObject),
      applyParams foreigns ⟨cats⟩ t =
        (collectedParams ⟨cats⟩).foldl (applyParam foreigns) t := by
  intro cats
  induction cats with
  | nil => intro t; rfl
  | cons c cs ih =>
      intro t
      show (c :: cs).foldl (applyParamsCat foreigns) t = _
      rw [show collectedParams ⟨c :: cs⟩ =
            collectStep [] c ++ collectedParams ⟨cs⟩ from by
        show (c :: cs).foldl collectStep [] = _
        rw [List.foldl_cons, collectStep_acc]
        rfl]
      rw [List.foldl_append, List.foldl_cons]
      by_cases h : strStartsWith c.name SUB_CONF_MARKER
      · rw [show applyParamsCat foreigns t c = t from by
          simp [applyParamsCat, h]]
        rw [show collectStep [] c = [] from by simp [collectStep, h]]
        exact ih t
      · rw [show applyParamsCat foreigns t c =
              c.params.foldl (applyParam foreigns) t from by
          simp [applyParamsCat, h]]
        rw [show collectStep [] c = c.params from by simp [collectStep, h]]
        exact ih (c.params.foldl (applyParam foreigns) t)

theorem unify_inner_inv (ps : List Parameter) :
    ∀ acc : List Parameter × List Parameter × List Parameter,
      (∀ p ∈ acc.1, p.error = none) → (∀ p ∈ acc.2.1, p.error = none) →
      (∀ p ∈ (ps.foldl unifyStepParam acc).1, p.error = none) ∧
      (∀ p ∈ (ps.foldl unifyStepParam acc).2.1, p.error = none) := by
  induction ps with
  | nil => intro acc h1 h2; exact ⟨h1, h2⟩
  | cons q rest ih =>
      intro acc h1 h2
      rw [List.foldl_cons]
      by_cases he : q.error.isSome = true
      · exact ih _ (by simpa [unifyStepParam, he] using h1)
          (by simpa [unifyStepParam, he] using h2)
      · have hq : q.error = none := by
          cases h : q.error with
          | none => rfl
          | some e => rw [h] at he; simp at he
        by_cases hl : q.plocal = true
        · refine ih _ ?_ (by simpa [unifyStepParam, he, hl] using h2)
          intro p hp
          rw [show unifyStepParam acc q = (acc.1 ++ [q], acc.2.1, acc.2.2)
            from by simp [unifyStepParam, he, hl]] at hp
          rcases List.mem_append.mp hp with h | h
          · exact h1 p h
          · simp at h; subst h; exact hq
        · refine ih _ (by simpa [unifyStepParam, he, hl] using h1) ?_
          intro p hp
          rw [show unifyStepParam acc q = (acc.1, acc.2.1 ++ [q], acc.2.2)
            from by simp [unifyStepParam, he, hl]] at hp
          rcases List.mem_append.mp hp with h | h
          · exact h2 p h
          · simp at h; subst h; exact hq

theorem unify_outer_inv (cats : List Category) :
    ∀ acc : List Parameter × List Parameter × List Parameter,
      (∀ p ∈ acc.1, p.error = none) → (∀ p ∈ acc.2.1, p.error = none) →
      (∀ p ∈ (cats.foldl unifyStepCat acc).1, p.error = none) ∧
      (∀ p ∈ (cats.foldl unifyStepCat acc).2.1, p.error = none) := by
  induction cats with
  | nil => intro acc h1 h2; exact ⟨h1, h2⟩
  | cons c cs ih =>
      intro acc h1 h2
      rw [List.foldl_cons]
      by_cases h : strStartsWith c.name SUB_CONF_MARKER
      · exact ih _ (by simpa [unifyStepCat, h] using h1)
          (by simpa [unifyStepCat, h] using h2)
      · have hstep : unifyStepCat acc c = c.params.foldl unifyStepParam acc :=
          by simp [unifyStepCat, h]
        rw [hstep]
        obtain ⟨g1, g2⟩ := unify_inner_inv c.params acc h1 h2
        exact ih _ g1 g2

theorem unify_no_error (conf : Configuration) :
    ∀ p, p ∈ conf.unify.1 ∨ p ∈ conf.unify.2.1 → p.error = none := by
  intro p hp
  obtain ⟨g1, g2⟩ := unify_outer_inv conf.cats ([], [], [])
    (by intro p h; simp at h) (by intro p h; simp at h)
  rcases hp with h | h
  · exact g1 p h
  · exact g2 p h

/-! Lemmas about `Configuration.update`. -/

theorem findParam_append (l1 l2 : List Parameter) (n : String) :
    findParam (l1 ++ l2) n =
      match findParam l1 n with
      | some p => some p
      | none => findParam l2 n := by
  induction l1 with
  | nil => rfl
  | cons p ps ih =>
      by_cases h : p.name = n
      · simp [findParam, h]
      · simp [findParam, h, ih]

theorem findParam_eq_none (ps : List Parameter) (n : String) :
    findParam ps n = none ↔ ∀ p ∈ ps, p.name ≠ n := by
  induction ps with
  | nil => simp [findParam]
  | cons p ps ih =>
      by_cases h : p.name = n
      · simp [findParam, h]
      · simp [findParam, h, ih]

theorem filter_name_nil_iff (ps : List Parameter) (n : String) :
    (ps.filter (fun q => q.name = n)).isEmpty = true ↔
      findParam ps n = none := by
  induction ps with
  | nil => simp [findParam]
  | cons p ps ih =>
      by_cases h : p.name = n
      · simp [List.filter_cons, findParam, h]
      · simp [List.filter_cons, findParam, h, ih]

theorem findParam_map_keyed (g : Parameter → Parameter) (n : String)
    (hg : ∀ q, (g q).name = q.name) (ps : List Parameter) (m : String) :
    findParam (ps.map (fun q => if q.name = n then g q else q)) m =
      if m = n then (findParam ps n).map g else findParam ps m := by
  induction ps with
  | nil => simp [findParam]
  | cons p ps ih =>
      by_cases hp : p.name = n
      · by_cases hm : m = n
        · subst hm; simp [findParam, hp, hg p]
        · have hnm : ¬n = m := fun h => hm h.symm
          simp [findParam, hp, hg p, hm, hnm, ih]
      · by_cases hm : m = n
        · subst hm; simp [findParam, hp, ih]
        · by_cases h2 : p.name = m
          · simp [findParam, hp, h2, hm]
          · simp [findParam, hp, h2, hm, ih]

theorem mergeParam_name (q param : Parameter) :
    (mergeParam q param).name = q.name := by
  unfold mergeParam Parameter.setValue
  cases q.vtype with
  | none => rfl
  | some t => by_cases h : isinstance param.value t <;> simp [h]

theorem mergeParam_svalue (q param : Parameter) :
    (mergeParam q param).svalue = param.svalue := by
  unfold mergeParam Parameter.setValue
  cases q.vtype with
  | none => rfl
  | some t => by_cases h : isinstance param.value t <;> simp [h]

theorem mergeParam_plocal (q param : Parameter) :
    (mergeParam q param).plocal = q.plocal := by
  unfold mergeParam Parameter.setValue
  cases q.vtype with
  | none => rfl
  | some t => by_cases h : isinstance param.value t <;> simp [h]

theorem mergeParam_error (q param : Parameter) :
    (mergeParam q param).error = q.error := by
  unfold mergeParam Parameter.setValue
  cases q.vtype with
  | none => rfl
  | some t => by_cases h : isinstance param.value t <;> simp [h]

theorem mergeParam_value (q param : Parameter) :
    (mergeParam q param).value =
      if typeOK q.vtype param.value then param.value else q.value := by
  unfold mergeParam Parameter.setValue typeOK
  cases q.vtype with
  | none => rfl
  | some t => by_cases h : isinstance param.value t <;> simp [h]

theorem updateWith_name (sc : Category) (param : Parameter) :
    (sc.updateWith param).name = sc.name := by
  by_cases h : (sc.getparams param).isEmpty = true <;>
    simp [Category.updateWith, h]

theorem updateWith_findParam (sc : Category) (param : Parameter)
    (m : String) :
    findParam (sc.updateWith param).params m =
      if m = param.name then
        match findParam sc.params param.name with
        | some pa => some (mergeParam pa param)
        | none => some (param.copy false)
      else findParam sc.params m := by
  by_cases he : (sc.getparams param).isEmpty = true
  · have hn : findParam sc.params param.name = none :=
      (filter_name_nil_iff sc.params param.name).mp he
    have hstep : sc.updateWith param =
        { sc with params := sc.params ++ [param.copy false] } := by
      simp [Category.updateWith, he]
    rw [hstep]
    show findParam (sc.params ++ [param.copy false]) m = _
    rw [findParam_append]
    by_cases hm : m = param.name
    · subst hm
      rw [hn]
      simp [findParam, Parameter.copy]
    · rw [if_neg hm]
      cases hf : findParam sc.params m with
      | some p => simp
      | none =>
          have hpm : ¬param.name = m := fun h => hm h.symm
          simp [findParam, Parameter.copy, hpm]
  · have hstep : sc.updateWith param =
        { sc with params := sc.params.map (fun q =>
            if q.name = param.name then mergeParam q param else q) } := by
      simp [Category.updateWith, he]
    rw [hstep]
    show findParam (sc.params.map (fun q =>
      if q.name = param.name then mergeParam q param else q)) m = _
    rw [findParam_map_keyed (fun q => mergeParam q param) param.name
      (fun q => mergeParam_name q param) sc.params m]
    by_cases hm : m = param.name
    · subst hm
      rw [if_pos rfl, if_pos rfl]
      cases hf : findParam sc.params param.name with
      | none =>
          exact absurd ((filter_name_nil_iff sc.params param.name).mpr hf) he
      | some pa => simp
    · rw [if_neg hm, if_neg hm]

theorem foldl_updateWith_name (qs : List Parameter) :
    ∀ sc : Category, (qs.foldl Category.updateWith sc).name = sc.name := by
  induction qs with
  | nil => intro sc; rfl
  | cons q qs ih =>
      intro sc
      rw [List.foldl_cons, ih (sc.updateWith q), updateWith_name]

theorem foldl_updateWith_findParam (qs : List Parameter)
    (hnodup : (qs.map Parameter.name).Nodup) :
    ∀ (sc : Category) (m : String),
      findParam (qs.foldl Category.updateWith sc).params m =
        match findParam qs m with
        | some pb =>
            match findParam sc.params m with
            | some pa => some (mergeParam pa pb)
            | none => some (pb.copy false)
        | none => findParam sc.params m := by
  induction qs with
  | nil => intro sc m; rfl
  | cons q qs ih =>
      intro sc m
      rw [List.map_cons, List.nodup_cons] at hnodup
      obtain ⟨hq, hqs⟩ := hnodup
      rw [List.foldl_cons, ih hqs (sc.updateWith q) m]
      by_cases hm : m = q.name
      · subst hm
        have hrest : findParam qs q.name = none := by
          rw [findParam_eq_none]
          intro p hp hname
          exact hq (hname ▸ List.mem_map_of_mem Parameter.name hp)
        rw [hrest]
        rw [show findParam (q :: qs) q.name = some q from by
          simp [findParam]]
        rw [updateWith_findParam]
        simp
      · have hqm : ¬q.name = m := fun h => hm h.symm
        rw [show findParam (q :: qs) m = findParam qs m from by
          simp [findParam, hqm]]
        rw [updateWith_findParam, if_neg hm]

theorem findCat_append (l1 l2 : List Category) (n : String) :
    findCat (l1 ++ l2) n =
      match findCat l1 n with
      | some c => some c
      | none => findCat l2 n := by
  induction l1 with
  | nil => rfl
  | cons c cs ih =>
      by_cases h : c.name = n
      · simp [findCat, h]
      · simp [findCat, h, ih]

theorem findCat_eq_none (cs : List Category) (n : String) :
    findCat cs n = none ↔ ∀ c ∈ cs, c.name ≠ n := by
  induction cs with
  | nil => simp [findCat]
  | cons c cs ih =>
      by_cases h : c.name = n
      · simp [findCat, h]
      · simp [findCat, h, ih]

theorem findCat_mem (cs : List Category) (n : String) (c : Category)
    (h : findCat cs n = some c) : c ∈ cs := by
  induction cs with
  | nil => simp [findCat] at h
  | cons c0 cs ih =>
      by_cases h0 : c0.name = n
      · rw [findCat, if_pos h0] at h
        simp at h
        subst h
        exact List.mem_cons_self c0 cs
      · rw [findCat, if_neg h0] at h
        exact List.mem_cons_of_mem c0 (ih h)

theorem hasCat_eq_isSome (cs : List Category) (n : String) :
    (List.any cs (fun c => c.name = n)) = (findCat cs n).isSome := by
  induction cs with
  | nil => rfl
  | cons c cs ih =>
      by_cases h : c.name = n
      · simp [findCat, h]
      · simp [findCat, h, ih]

theorem findCat_map_keyed (g : Category → Category) (n : String)
    (hg : ∀ c, (g c).name = c.name) (cs : List Category) (m : String) :
    findCat (cs.map (fun c => if c.name = n then g c else c)) m =
      if m = n then (findCat cs n).map g else findCat cs m := by
  induction cs with
  | nil => simp [findCat]
  | cons c cs ih =>
      by_cases hp : c.name = n
      · by_cases hm : m = n
        · subst hm; simp [findCat, hp, hg c]
        · have hnm : ¬n = m := fun h => hm h.symm
          simp [findCat, hp, hg c, hm, hnm, ih]
      · by_cases hm : m = n
        · subst hm; simp [findCat, hp, ih]
        · by_cases h2 : c.name = m
          · simp [findCat, hp, h2, hm]
          · simp [findCat, hp, h2, hm, ih]

theorem updateStepCat_findCat (acc : Configuration) (cat : Category)
    (m : String) :
    findCat (updateStepCat acc cat).cats m =
      if m = cat.name then
        match findCat acc.cats cat.name with
        | some ca => some (cat.params.foldl Category.updateWith ca)
        | none => some cat
      else findCat acc.cats m := by
  unfold updateStepCat Configuration.hasCat
  rw [hasCat_eq_isSome]
  cases hf : findCat acc.cats cat.name with
  | some ca =>
      simp only [hf, Option.isSome_some, if_true]
      rw [findCat_map_keyed (fun sc => cat.params.foldl Category.updateWith sc)
        cat.name (fun sc => foldl_updateWith_name cat.params sc) acc.cats m]
      by_cases hm : m = cat.name
      · subst hm; simp [hf]
      · simp [hm]
  | none =>
      simp only [hf, Option.isSome_none, Bool.false_eq_true, if_false]
      rw [findCat_append]
      by_cases hm : m = cat.name
      · subst hm
        rw [hf]
        simp [findCat]
      · rw [if_neg hm]
        cases hg : findCat acc.cats m with
        | some c => simp
        | none =>
            have hcm : ¬cat.name = m := fun h => hm h.symm
            simp [findCat, hcm]

theorem foldl_updateStepCat_findCat (bcats : List Category)
    (hnodup : (bcats.map Category.name).Nodup) :
    ∀ (acc : Configuration) (m : String),
      findCat (bcats.foldl updateStepCat acc).cats m =
        match findCat bcats m with
        | some cb =>
            match findCat acc.cats m with
            | some ca => some (cb.params.foldl Category.updateWith ca)
            | none => some cb
        | none => findCat acc.cats m := by
  induction bcats with
  | nil => intro acc m; rfl
  | cons cb bcats ih =>
      intro acc m
      rw [List.map_cons, List.nodup_cons] at hnodup
      obtain ⟨hq, hqs⟩ := hnodup
      rw [List.foldl_cons, ih hqs (updateStepCat acc cb) m]
      by_cases hm : m = cb.name
      · subst hm
        have hrest : findCat bcats cb.name = none := by
          rw [findCat_eq_none]
          intro c hc hname
          exact hq (hname ▸ List.mem_map_of_mem Category.name hc)
        rw [hrest]
        rw [show findCat (cb :: bcats) cb.name = some cb from by
          simp [findCat]]
        rw [updateStepCat_findCat]
        simp
      · have hcm : ¬cb.name = m := fun h => hm h.symm
        rw [show findCat (cb :: bcats) m = findCat bcats m from by
          simp [findCat, hcm]]
        rw [updateStepCat_findCat, if_neg hm]

theorem update_lookup (A B : Configuration)
    (hB : (B.cats.map Category.name).Nodup) (cn : String) (cb : Category)
    (hcb : findCat B.cats cn = some cb)
    (hcbp : (cb.params.map Parameter.name).Nodup) (pn : String) :
    lookupParam (A.update B) cn pn =
      match findCat A.cats cn with
      | some ca =>
          match findParam cb.params pn with
          | some pb =>
              match findParam ca.params pn with
              | some pa => some (mergeParam pa pb)
              | none => some (pb.copy false)
          | none => findParam ca.params pn
      | none => findParam cb.params pn := by
  unfold lookupParam Configuration.update
  rw [foldl_updateStepCat_findCat B.cats hB A cn, hcb]
  cases hca : findCat A.cats cn with
  | none => simp
  | some ca =>
      simp only []
      rw [foldl_updateWith_findParam cb.params hcbp ca pn]

/-- C1: after `A.update(B)` — with `B`'s category names unique and its
parameter names unique per category, as `_content` dictionaries guarantee —
(1) a parameter name present in same-named categories of both ends up merged:
its `svalue` becomes `B`'s and, when the value assignment is type-compatible,
its `value` becomes `B`'s; (2) a parameter present only in `B`'s version of a
shared category is inserted as a copy with `local = false`; (3) a category of
`B` whose name is absent from `A` appears in the result unchanged. -/
theorem update_merge_semantics (A B : Configuration)
    (hB : (B.cats.map Category.name).Nodup)
    (hBp : ∀ c ∈ B.cats, (c.params.map Parameter.name).Nodup) :
    (∀ cn ca cb pn pa pb,
      findCat A.cats cn = some ca → findCat B.cats cn = some cb →
      findParam ca.params pn = some pa → findParam cb.params pn = some pb →
      lookupParam (A.update B) cn pn = some (mergeParam pa pb) ∧
      (mergeParam pa pb).svalue = pb.svalue ∧
      (typeOK pa.vtype pb.value = true →
        (mergeParam pa pb).value = pb.value)) ∧
    (∀ cn ca cb pn pb,
      findCat A.cats cn = some ca → findCat B.cats cn = some cb →
      findParam ca.params pn = none → findParam cb.params pn = some pb →
      lookupParam (A.update B) cn pn = some (pb.copy false) ∧
      (pb.copy false).plocal = false) ∧
    (∀ cn cb,
      findCat B.cats cn = some cb → findCat A.cats cn = none →
      findCat (A.update B).cats cn = some cb) := by
  refine ⟨?_, ?_, ?_⟩
  · intro cn ca cb pn pa pb hca hcb hpa hpb
    refine ⟨?_, mergeParam_svalue pa pb, ?_⟩
    · rw [update_lookup A B hB cn cb hcb (hBp cb (findCat_mem B.cats cn cb hcb))
        pn, hca, hpb]
      simp [hpa]
    · intro hok
      rw [mergeParam_value, if_pos hok]
  · intro cn ca cb pn pb hca hcb hpa hpb
    constructor
    · rw [update_lookup A B hB cn cb hcb (hBp cb (findCat_mem B.cats cn cb hcb))
        pn, hca, hpb]
      simp [hpa]
    · rfl
  · intro cn cb hcb hca
    show findCat (B.cats.foldl updateStepCat A).cats cn = some cb
    rw [foldl_updateStepCat_findCat B.cats hB A cn, hcb, hca]

/-- Witness for C1: updating `⟨[catAX]⟩` with `B1w = ⟨[catBX, catY]⟩`
exercises all three branches — the shared `a`, the foreign `b`, the new
category `Y`. -/
theorem update_merge_semantics_witness :
    lookupParam (Configuration.update ⟨[catAX]⟩ B1w) "X" "a" =
      some (mergeParam pA pA2) ∧
    lookupParam (Configuration.update ⟨[catAX]⟩ B1w) "X" "b" =
      some (pB.copy false) ∧
    findCat (Configuration.update ⟨[catAX]⟩ B1w).cats "Y" = some catY := by
  have h := update_merge_semantics ⟨[catAX]⟩ B1w (by decide) (by decide)
  exact ⟨(h.1 "X" catAX catBX "a" pA pA2 rfl rfl rfl rfl).1,
         (h.2.1 "X" catAX catBX "b" pB rfl rfl rfl rfl).1,
         h.2.2 "Y" catY rfl rfl⟩

/-- C5: for a parameter name present in same-named categories of both sides,
the merge overwrites `svalue` unconditionally; when the value assignment is
type-incompatible the `TypeError` is swallowed and the previously resolved
`value` (and `error`, and `local` flag) are retained — `update` is total and
the mismatch never propagates out of the merge step. -/
theorem update_type_mismatch_swallowed (A B : Configuration)
    (hB : (B.cats.map Category.name).Nodup)
    (hBp : ∀ c ∈ B.cats, (c.params.map Parameter.name).Nodup) :
    ∀ cn ca cb pn pa pb,
      findCat A.cats cn = some ca → findCat B.cats cn = some cb →
      findParam ca.params pn = some pa → findParam cb.params pn = some pb →
      lookupParam (A.update B) cn pn = some (mergeParam pa pb) ∧
      (mergeParam pa pb).svalue = pb.svalue ∧
      (typeOK pa.vtype pb.value = false →
        (mergeParam pa pb).value = pa.value ∧
        (mergeParam pa pb).error = pa.error ∧
        (mergeParam pa pb).plocal = pa.plocal) := by
  intro cn ca cb pn pa pb hca hcb hpa hpb
  refine ⟨?_, mergeParam_svalue pa pb, ?_⟩
  · rw [update_lookup A B hB cn cb hcb (hBp cb (findCat_mem B.cats cn cb hcb))
      pn, hca, hpb]
    simp [hpa]
  · intro hko
    refine ⟨?_, mergeParam_error pa pb, mergeParam_plocal pa pb⟩
    rw [mergeParam_value, if_neg (by simp [hko])]

/-- Witness for C5: overriding the `int`-typed `n = 5` with the string
parameter of `catS2` updates `svalue` but keeps the value `5`. -/
theorem update_type_mismatch_swallowed_witness :
    lookupParam (Configuration.update ⟨[catS]⟩ ⟨[catS2]⟩) "S" "n" =
      some (mergeParam pInt pStr) ∧
    (mergeParam pInt pStr).svalue = some "x-expr" ∧
    (mergeParam pInt pStr).value = Value.vint 5 := by
  have h := update_type_mismatch_swallowed ⟨[catS]⟩ ⟨[catS2]⟩ (by decide)
    (by decide) "S" catS catS2 "n" pInt pStr rfl rfl rfl rfl
  exact ⟨h.1, h.2.1, (h.2.2 rfl).1⟩

/-- C4: a parameter whose `error` field is set is never placed into the
VALUES or FOREIGNS views by `unify`, and its value is never applied to a
target: in `_configure`'s attribute phase (core.py lines 567-583), when
every non-sub-configuration parameter named `n` has `error` set, no
attribute named `n` is assigned on the target object. -/
theorem errored_param_never_applied (foreigns : Bool) (conf : Configuration)
    (t : PyObject) (n : String)
    (herr : ∀ q ∈ collectedParams conf, q.name = n → q.error.isSome = true) :
    (∀ p, p ∈ conf.unify.1 ∨ p ∈ conf.unify.2.1 → p.error = none) ∧
    (applyParams foreigns conf t).getattr n = t.getattr n := by
  constructor
  · exact unify_no_error conf
  · obtain ⟨cats⟩ := conf
    rw [applyParams_eq_foldl_collected]
    exact getattr_foldl_applyParam_frozen foreigns n _ t
      (fun q hm hn => Or.inl (herr q hm hn))

/-- Witness for C4 at the fixture configuration: the errored parameter
`error` of category `A` is never assigned onto a fresh target. -/
theorem errored_param_never_applied_witness :
    (applyParams true ⟨[catA, catB]⟩ ⟨[]⟩).getattr "error" =
      PyObject.getattr ⟨[]⟩ "error" :=
  (errored_param_never_applied true ⟨[catA, catB]⟩ ⟨[]⟩ "error"
    (by decide)).2

/-- C9: in `_configure`'s attribute phase, a non-errored parameter that
occurs exactly once among the non-sub-configuration parameters is assigned
onto the same-named target attribute exactly when `self.foreigns` or its
`local` flag holds; with both false the attribute is left untouched. -/
theorem param_applied_iff_foreigns_or_local (foreigns : Bool)
    (conf : Configuration) (t : PyObject) (p : Parameter)
    (huniq : (collectedParams conf).filter (fun q => q.name = p.name) = [p])
    (herr : p.error = none) :
    (applyParams foreigns conf t).getattr p.name =
      if foreigns || p.plocal then some p.value else t.getattr p.name := by
  obtain ⟨cats⟩ := conf
  rw [applyParams_eq_foldl_collected]
  by_cases happ : (foreigns || p.plocal) = true
  · rw [if_pos happ]
    exact getattr_foldl_applyParam_applied foreigns p.name p herr happ _ t
      huniq
  · have hf : (foreigns || p.plocal) = false := by simpa using happ
    rw [if_neg (by simp [hf])]
    refine getattr_foldl_applyParam_frozen foreigns p.name _ t ?_
    intro q hm hn
    have hqf : q ∈ (collectedParams ⟨cats⟩).filter
        (fun q => q.name = p.name) :=
      List.mem_filter.mpr ⟨hm, by simp [hn]⟩
    rw [huniq] at hqf
    simp at hqf
    subst hqf
    exact Or.inr hf

/-- Witness for C9 at the fixture configuration: with `foreigns = true` the
parameter `b` of category `B` is assigned onto a fresh target. -/
theorem param_applied_iff_foreigns_or_local_witness :
    (applyParams true ⟨[catA, catB]⟩ ⟨[]⟩).getattr "b" =
      some (Value.vstr "b") := by
  have h := param_applied_iff_foreigns_or_local true ⟨[catA, catB]⟩ ⟨[]⟩ pB
    (by decide) rfl
  simpa [pB] using h

/-- C2: the claim states that `Configuration.resolve` takes a `besteffort`
argument governing failure propagation.  The definition in conf.py lines
49-51 accepts only `configurable`, `scope` and `safe`, while its caller
`Configurable.applyconfiguration` (core.py lines 446-449) passes
`besteffort=besteffort`; under Python call semantics the unexpected keyword
raises a `TypeError` before any parameter is resolved. -/
theorem applyconfiguration_resolve_kwarg_typeError :
    pyCallKwargs resolveKeywords applyconfResolveKeywords =
      Except.error PyErr.typeError ∧
    resolveKeywords.contains "besteffort" = false := ⟨rfl, rfl⟩

/-- C3: the claim states that `pvalue(name)` returns the value from the last
category containing `name` (and `history=1` the next-to-last).  On a
configuration whose categories `C1` and `C2` both define `p`, the code
instead raises an `AttributeError`: at the first matching category the test
`cname in (None, category.name)` (conf.py line 94) dereferences
`category.name` while `category` is still `None`. -/
theorem pvalue_raises_attributeError_instead_of_last_value :
    Configuration.pvalue
        ⟨[⟨"C1", [⟨"p", Value.vint 1, none, none, none, true⟩]⟩,
          ⟨"C2", [⟨"p", Value.vint 2, none, none, none, true⟩]⟩]⟩
        "p" none 0 = Except.error PyErr.attributeError ∧
    Configuration.pvalue
        ⟨[⟨"C1", [⟨"p", Value.vint 1, none, none, none, true⟩]⟩,
          ⟨"C2", [⟨"p", Value.vint 2, none, none, none, true⟩]⟩]⟩
        "p" none 1 = Except.error PyErr.attributeError := ⟨rfl, rfl⟩

/-- C6: the claim (and the docstring, conf.py line 81) state that `pvalue`
raises a `NameError` when the category or the parameter name is unknown.
The `NameError` branch is reached when the parameter occurs nowhere; but
with the parameter present and an unknown category name, conf.py line 94
raises an `AttributeError` first (`category` still `None`), so the promised
lookup error is not the one raised. -/
theorem pvalue_lookup_error_divergence :
    Configuration.pvalue ⟨[⟨"X", [⟨"p", Value.vint 1, none, none, none, true⟩]⟩]⟩
        "q" (some "Y") 0 = Except.error PyErr.nameError ∧
    Configuration.pvalue ⟨[⟨"X", [⟨"p", Value.vint 1, none, none, none, true⟩]⟩]⟩
        "p" (some "Y") 0 = Except.error PyErr.attributeError := ⟨rfl, rfl⟩

/-- C7 (counterexample): with the fixture's category names — `A` and `B` are
*different* names — `Configuration(A).update(Configuration(B))` appends
category `B` unchanged: every parameter named `b` in the result keeps
`local = true` (the claim expects a foreign `b` with `local = false`), and
category `A`'s parameter `a` still holds `"a"`. -/
theorem update_scenario_counterexample :
    Configuration.update ⟨[catA]⟩ ⟨[catB]⟩ = ⟨[catA, catB]⟩ ∧
    ((Configuration.update ⟨[catA]⟩ ⟨[catB]⟩).cats.all
      (fun c => c.params.all (fun q => q.name ≠ "b" ∨ q.plocal = true))) = true ∧
    lookupParam (Configuration.update ⟨[catA]⟩ ⟨[catB]⟩) "A" "a" = some pA := by
  decide

/-- C7 (amended): when the two fixture categories carry the *same* category
name, the merge behaves as claimed: `a` is overridden to `"b"` and stays
local, `_` keeps `2` and stays local, `error` keeps its recorded failure and
stays local, and `b` is inserted as a foreign (`local = false`) copy. -/
theorem update_scenario_amended :
    Configuration.update ⟨[catAX]⟩ ⟨[catBX]⟩ =
      ⟨[⟨"X", [⟨"a", Value.vstr "b", none, some PyType.pystr, none, true⟩, pU,
               pE,
               ⟨"b", Value.vstr "b", none, some PyType.pystr, none, false⟩]⟩]⟩ := by
  decide

/-- C8: the claim states that a sub-configuration category (marker +
`widget`) makes the expander call the resolved callable with the
sub-category's parameters and recurse.  In core.py lines 567-569 `sub_confs`
collects category *names* into a list, and line 591 then evaluates
`sub_confs[sub_conf_name]`, indexing that list with a string: expansion
raises a `TypeError` whenever a sub-configuration matches a parameter. -/
theorem subconf_expansion_typeError :
    configureOne true ⟨[subCat, widgetCat]⟩ ⟨[]⟩ =
      (⟨[("widget", Value.vobj 7 0)]⟩, Except.error PyErr.typeError) := rfl

/-- C10: the claim states that objects present only in the previous
`toconfigure` list get this configurable removed from their back-reference
list.  The setter computes `excluded = set(value) - set(self._toconfigure)`
(core.py line 276) — new minus old, despite the `clean old references`
comment — so the dropped object `1` keeps configurable `0` in its
`__configurables__` attribute after the list is replaced by `[2]`. -/
theorem toconfigure_old_backref_kept :
    setToconfigure 0 true [1] [(1, [0])] [2] = ([(1, [0]), (2, [0])], [2]) ∧
    getCfgs (setToconfigure 0 true [1] [(1, [0])] [2]).1 1 = some [0] := by decide

end B3j0fConf
